import Mathlib

/-!
Verification of the resolver repository's selector (path parser, coercion,
equality, navigator) and string interpolation engine, as a shallow embedding
in Lean.  Strings are modelled at the character level (the Go code scans
bytes; all characters with special meaning are ASCII, and UTF-8 guarantees
no false matches inside multi-byte sequences).  Go machine integers are
modelled as unbounded integers and Go float64 values as rationals; these
idealisations are noted at the definitions they affect.
-/

set_option maxRecDepth 10000

namespace ResolverRepo

/-- The generic value tree produced by the format adapters: Go `any` holding
`string`, `int`/`int64`, `float64`, `bool`, `nil`, `map[string]any` or
`[]any`.  Mappings are modelled as association lists (Go map iteration order
is irrelevant to the navigator, which only looks keys up); float64 is
modelled as a rational. -/
inductive Value where
  | str (s : String)
  | int (n : Int)
  | float (q : Rat)
  | bool (b : Bool)
  | null
  | map (entries : List (String × Value))
  | seq (elems : List Value)

/-- Scan loop of `ParsePath` (selector package): characters are consumed left
to right with an accumulating buffer and a bracket-nesting depth; `[`
increments the depth, `]` decrements with floor zero (Go: `if depth > 0`,
here `Nat` subtraction), `.` at depth 0 flushes the buffer as a token, any
other character (and `.` at positive depth) is appended literally; at end of
input the final buffer is flushed. -/
def parsePathAux : List Char → List Char → Nat → List String
  | [], buf, _ => [String.mk buf]
  | c :: rest, buf, depth =>
    if c = '[' then parsePathAux rest (buf ++ [c]) (depth + 1)
    else if c = ']' then parsePathAux rest (buf ++ [c]) (depth - 1)
    else if c = '.' then
      if depth = 0 then String.mk buf :: parsePathAux rest [] 0
      else parsePathAux rest (buf ++ [c]) depth
    else parsePathAux rest (buf ++ [c]) depth

/-- `ParsePath` from the selector package: split a dotted path into tokens,
keeping dots that occur inside bracketed filter segments. -/
def ParsePath (s : String) : List String :=
  parsePathAux s.data [] 0

/-- Plain splitting on `.` (the spec's phrase "splitting the string on `.`"),
used to compare `ParsePath` with on bracket-free inputs. -/
def splitDotAux : List Char → List Char → List String
  | [], buf => [String.mk buf]
  | c :: rest, buf =>
    if c = '.' then String.mk buf :: splitDotAux rest []
    else splitDotAux rest (buf ++ [c])

/-- Splitting a string on `.`, per the spec's words. -/
def splitOnDot (s : String) : List String :=
  splitDotAux s.data []

/-- Go `unicode.IsSpace`, used by `strings.TrimSpace`. -/
def goIsSpace (c : Char) : Bool :=
  c = ' ' || c = '\t' || c = '\n' || c = '\x0b' || c = '\x0c' || c = '\r' ||
  c.val = 0x85 || c.val = 0xa0 || c.val = 0x1680 ||
  (0x2000 ≤ c.val && c.val ≤ 0x200a) || c.val = 0x2028 || c.val = 0x2029 ||
  c.val = 0x202f || c.val = 0x205f || c.val = 0x3000

/-- Drop the longest suffix of characters satisfying `p`. -/
def dropTailWhile (p : Char → Bool) (l : List Char) : List Char :=
  (l.reverse.dropWhile p).reverse

/-- Go `strings.TrimSpace` on a character list. -/
def trimSpaceL (l : List Char) : List Char :=
  dropTailWhile goIsSpace (l.dropWhile goIsSpace)

/-- Numeric value of a digit string (most significant first). -/
def digitsVal (l : List Char) : Nat :=
  l.foldl (fun a c => a * 10 + (c.toNat - 48)) 0

/-- Nonempty all-digit strings parse to their value; anything else fails. -/
def digitsToNat (l : List Char) : Option Nat :=
  if l ≠ [] ∧ l.all Char.isDigit then some (digitsVal l) else none

/-- Go `strconv.Atoi`: an optional sign followed by at least one decimal
digit and nothing else.  Idealised to unbounded integers (Go's 64-bit
overflow error is out of the model). -/
def goAtoi (l : List Char) : Option Int :=
  match l with
  | '+' :: rest => (digitsToNat rest).map (fun n => (n : Int))
  | '-' :: rest => (digitsToNat rest).map (fun n => -(n : Int))
  | _ => (digitsToNat l).map (fun n => (n : Int))

/-- Mantissa and exponent assembled into a rational:
`sign * (ipart * 10 ^ fdigits + fpart) * 10 ^ exp / 10 ^ fdigits`, written
with `mkRat` and integer arithmetic so that it evaluates inside the
kernel. -/
def ratOfParts (neg : Bool) (ip fp : List Char) (e : Int) : Rat :=
  let m : Int := Int.ofNat (digitsVal ip * 10 ^ fp.length + digitsVal fp)
  let ms : Int := if neg then -m else m
  match e with
  | .ofNat k => mkRat (ms * Int.ofNat (10 ^ k)) (10 ^ fp.length)
  | .negSucc k => mkRat ms (10 ^ fp.length * 10 ^ (k + 1))

/-- Exponent suffix of a float literal: empty, or `e`/`E`, an optional sign
and at least one digit consuming the whole remainder. -/
def parseExpSuffix (neg : Bool) (ip fp : List Char) : List Char → Option Rat
  | [] => some (ratOfParts neg ip fp 0)
  | c :: r =>
      if c = 'e' ∨ c = 'E' then
        match r with
        | '+' :: r2 =>
            (digitsToNat r2).map (fun n => ratOfParts neg ip fp (n : Int))
        | '-' :: r2 =>
            (digitsToNat r2).map (fun n => ratOfParts neg ip fp (-(n : Int)))
        | r2 => (digitsToNat r2).map (fun n => ratOfParts neg ip fp (n : Int))
      else none

/-- Go `strconv.ParseFloat` restricted to decimal syntax: optional sign,
digits with an optional fractional part (at least one digit overall), and an
optional decimal exponent.  Values are idealised as exact rationals; the
hexadecimal-float and `Inf`/`NaN` spellings accepted by Go, and Go's
out-of-range error for values beyond float64, are outside the model (no
claim exercises them). -/
def goParseFloatCore (l : List Char) (neg : Bool) : Option Rat :=
  let ip := l.takeWhile Char.isDigit
  let rest1 := l.dropWhile Char.isDigit
  match rest1 with
  | '.' :: r2 =>
      let fp := r2.takeWhile Char.isDigit
      let rest2 := r2.dropWhile Char.isDigit
      if ip.length + fp.length = 0 then none
      else parseExpSuffix neg ip fp rest2
  | _ =>
      if ip.length = 0 then none else parseExpSuffix neg ip [] rest1

/-- Sign handling of `strconv.ParseFloat`. -/
def goParseFloat (l : List Char) : Option Rat :=
  match l with
  | '+' :: rest => goParseFloatCore rest false
  | '-' :: rest => goParseFloatCore rest true
  | _ => goParseFloatCore l false

/-- ASCII case folding (Go `strings.ToLower`; the claims only exercise ASCII
letters). -/
def lowerChar (c : Char) : Char :=
  if 'A' ≤ c ∧ c ≤ 'Z' then Char.ofNat (c.toNat + 32) else c

/-- `strings.ToLower` on a string. -/
def toLowerStr (s : String) : String :=
  String.mk (s.data.map lowerChar)

/-- Go `strconv.ParseBool`: accepts exactly `1,t,T,TRUE,true,True` (true)
and `0,f,F,FALSE,false,False` (false); every other spelling is an error. -/
def goParseBool (s : String) : Option Bool :=
  if s = "1" ∨ s = "t" ∨ s = "T" ∨ s = "TRUE" ∨ s = "true" ∨ s = "True" then
    some true
  else if s = "0" ∨ s = "f" ∨ s = "F" ∨ s = "FALSE" ∨ s = "false" ∨ s = "False" then
    some false
  else none

/-- `coerce` from the selector package: try `strconv.Atoi`, then
`strconv.ParseFloat`, then — when the lowercased string is `true` or
`false` — `strconv.ParseBool` of the original string with the error
discarded (Go `b, _ := strconv.ParseBool(val)`, so a failed parse leaves the
zero value `false`); otherwise the raw string. -/
def coerce (val : String) : Value :=
  match goAtoi val.data with
  | some i => .int i
  | none =>
    match goParseFloat val.data with
    | some f => .float f
    | none =>
      if toLowerStr val = "true" ∨ toLowerStr val = "false" then
        .bool ((goParseBool val).getD false)
      else .str val

/-- Rendering of a float64 by Go `fmt.Sprint`.  Integral values print
without a fractional part, which is the only aspect any property relies on;
for non-integral values Go prints the shortest decimal that round-trips,
idealised here as `num/den`. -/
def renderRat (q : Rat) : String :=
  if q.den = 1 then toString q.num
  else toString q.num ++ "/" ++ toString q.den

mutual

/-- Go `fmt.Sprint` of a tree value, used by `equalCoerced` as its
last-resort comparison.  Scalars follow Go's `%v` renderings (`<nil>` for
nil, `true`/`false`, decimal integers); sequences render as the
space-separated elements in brackets and mappings as `map[k:v ...]` (Go
sorts map keys; the model keeps association-list order, which no claim
exercises). -/
def renderValue : Value → String
  | .str s => s
  | .int n => toString n
  | .float q => renderRat q
  | .bool b => if b then "true" else "false"
  | .null => "<nil>"
  | .seq elems => "[" ++ renderElems elems ++ "]"
  | .map entries => "map[" ++ renderEntries entries ++ "]"

/-- Space-separated rendering of sequence elements. -/
def renderElems : List Value → String
  | [] => ""
  | [v] => renderValue v
  | v :: rest => renderValue v ++ " " ++ renderElems rest

/-- Space-separated rendering of mapping entries as `key:value`. -/
def renderEntries : List (String × Value) → String
  | [] => ""
  | [(k, v)] => k ++ ":" ++ renderValue v
  | (k, v) :: rest => k ++ ":" ++ renderValue v ++ " " ++ renderEntries rest

end

/-- Go conversion `int(f)` of a float64: truncation toward zero. -/
def goTruncToInt (q : Rat) : Int :=
  q.num.tdiv (q.den : Int)

/-- `equalCoerced` from the selector package: switch on the coerced filter
value's type (bool, int, float64, string); inside the int case a
floating-point tree value matches when its truncation equals the integer
and converting the truncation back reproduces the float; any combination
not covered falls through to comparing both sides' `fmt.Sprint`
renderings. -/
def equalCoerced (v want : Value) : Bool :=
  match want with
  | .bool w =>
    match v with
    | .bool vb => decide (vb = w)
    | _ => decide (renderValue v = renderValue want)
  | .int w =>
    match v with
    | .int vv => decide (vv = w)
    | .float vv =>
        decide (goTruncToInt vv = w) && decide ((goTruncToInt vv : Rat) = vv)
    | _ => decide (renderValue v = renderValue want)
  | .float w =>
    match v with
    | .float vf => decide (vf = w)
    | _ => decide (renderValue v = renderValue want)
  | .str w =>
    match v with
    | .str vs => decide (vs = w)
    | _ => decide (renderValue v = renderValue want)
  | _ => decide (renderValue v = renderValue want)

/-- `isFilterToken` from the selector package: starts with `[`, ends with
`]` and contains `=`. -/
def isFilterToken (tok : String) : Bool :=
  decide (tok.data.head? = some '[') && decide (tok.data.getLast? = some ']') &&
    tok.data.contains '='

/-- The error cases of the selector package, one constructor per
`fmt.Errorf` call site of `Navigate` and `parseFilterToken`. -/
inductive NavError where
  | invalidFilter (tok : String)
  | emptyFilterField (tok : String)
  | keyNotFound (k : String)
  | noFilterMatch (field : String) (want : Value)
  | badIndexToken (tok : String)
  | indexOutOfBounds (idx : Int)
  | notContainer (tok : String)

/-- Modelled from the spec: section 7's error-kind taxonomy.  The Go
selector distinguishes its error branches only by message text; the spec
classifies them into the kinds below (missing key, out-of-bounds index and
unmatched filter as NotFound; malformed tokens as BadPath; descending into
a scalar is grouped with NotFound, matching the `ErrNotFound` wrapping the
format adapters apply to every navigation error). -/
inductive ErrKind where
  | notFound
  | badPath
deriving DecidableEq

/-- Modelled from the spec: the kind assigned to each error branch of the
selector (the Go code carries no sentinel on these errors). -/
def navErrKind : NavError → ErrKind
  | .invalidFilter _ => .badPath
  | .emptyFilterField _ => .badPath
  | .keyNotFound _ => .notFound
  | .noFilterMatch _ _ => .notFound
  | .badIndexToken _ => .badPath
  | .indexOutOfBounds _ => .notFound
  | .notContainer _ => .notFound

/-- Go `strings.TrimPrefix` with a single-character affix. -/
def dropLeadChar (c : Char) : List Char → List Char
  | [] => []
  | c' :: rest => if c' = c then rest else c' :: rest

/-- Go `strings.TrimSuffix` with a single-character affix. -/
def dropTailChar (c : Char) (l : List Char) : List Char :=
  if l.getLast? = some c then l.dropLast else l

/-- Go `strings.SplitN(s, "=", 2)` when an `=` is present: the text before
the first `=` and everything after it; `none` when there is no `=`. -/
def splitFirstEq : List Char → Option (List Char × List Char)
  | [] => none
  | '=' :: rest => some ([], rest)
  | c :: rest => (splitFirstEq rest).map (fun p => (c :: p.1, p.2))

/-- Membership in the Go cutset `"\"'"`. -/
def isQuoteChar (c : Char) : Bool :=
  c = '"' || c = '\''

/-- Go `strings.Trim(val, "\"'")`: remove every leading and trailing
character that is a single or double quote. -/
def trimQuoteRun (l : List Char) : List Char :=
  dropTailWhile isQuoteChar (l.dropWhile isQuoteChar)

/-- Quote handling of `parseFilterToken`: when the value starts and ends
with a double quote, or starts and ends with a single quote, apply
`strings.Trim` over both quote characters; otherwise leave it unchanged. -/
def stripFilterQuotes (l : List Char) : List Char :=
  if (l.head? = some '"' ∧ l.getLast? = some '"') ∨
     (l.head? = some '\'' ∧ l.getLast? = some '\'') then
    trimQuoteRun l
  else l

/-- `parseFilterToken` from the selector package: strip one leading `[` and
one trailing `]`, split at the first `=`, trim both sides, strip quotes
around the value, and reject an empty field name. -/
def parseFilterToken (tok : String) : Except NavError (String × String) :=
  let inner := dropTailChar ']' (dropLeadChar '[' tok.data)
  match splitFirstEq inner with
  | none => .error (.invalidFilter tok)
  | some (kRaw, vRaw) =>
    let key := trimSpaceL kRaw
    let val := stripFilterQuotes (trimSpaceL vRaw)
    if key = [] then .error (.emptyFilterField tok)
    else .ok (String.mk key, String.mk val)

/-- Lookup of a key in a mapping (Go `curr[k]` / `m[fk]`). -/
def lookupEntry (k : String) : List (String × Value) → Option Value
  | [] => none
  | (k', v) :: rest => if k' = k then some v else lookupEntry k rest

/-- The filter scan of `Navigate`: walk the sequence in order, skip
elements that are not mappings and mappings without the field, and return
the first element whose field compares equal under `equalCoerced`. -/
def findMatch (fk : String) (want : Value) : List Value → Option Value
  | [] => none
  | elem :: rest =>
    match elem with
    | .map m =>
      match lookupEntry fk m with
      | some got => if equalCoerced got want then some elem else findMatch fk want rest
      | none => findMatch fk want rest
    | _ => findMatch fk want rest

/-- The selection predicate the filter scan implements, stated on a single
element: the element is a mapping, carries the field, and the field's value
compares equal under `equalCoerced`. -/
def filterPred (fk : String) (want : Value) : Value → Bool
  | .map m =>
    match lookupEntry fk m with
    | some got => equalCoerced got want
    | none => false
  | _ => false

/-- One iteration of `Navigate`'s loop: advance the current value by one
path token.  Mappings are looked up by key; sequences accept a filter token
(coerce the raw value once, then first-match scan) or an integer index
(`strconv.Atoi`, then a bounds check); every other current value rejects
the token. -/
def navStep (current : Value) (k : String) : Except NavError Value :=
  match current with
  | .map entries =>
    match lookupEntry k entries with
    | some v => .ok v
    | none => .error (.keyNotFound k)
  | .seq elems =>
    if isFilterToken k then
      match parseFilterToken k with
      | .error e => .error e
      | .ok (fk, fvRaw) =>
        let want := coerce fvRaw
        match findMatch fk want elems with
        | some elem => .ok elem
        | none => .error (.noFilterMatch fk want)
    else
      match goAtoi k.data with
      | none => .error (.badIndexToken k)
      | some idx =>
        if idx < 0 ∨ (elems.length : Int) ≤ idx then
          .error (.indexOutOfBounds idx)
        else .ok (elems.getD idx.toNat .null)
  | _ => .error (.notContainer k)

/-- `Navigate` from the selector package: fold `navStep` over the token
list, stopping at the first error. -/
def Navigate (data : Value) : List String → Except NavError Value
  | [] => .ok data
  | k :: ks =>
    match navStep data k with
    | .ok v => Navigate v ks
    | .error e => .error e

/-- The error cases of `resolveStringDepth` (interpolation.go), one
constructor per failure site: the three `ErrBadPath` wraps (missing `}`
as found by `tokenBounds`, empty/whitespace token content, depth
exhaustion) and the wrap of a resolver error together with the failing
token's content (`resolve $\x7b%s\x7d: %w`).  The cause of a
`resolveFailed` stays inspectable as its own type. -/
inductive InterpError (ε : Type) where
  | missingClosingBrace
  | emptyToken
  | depthExceeded
  | resolveFailed (token : String) (cause : ε)
deriving DecidableEq

/-- Whether an interpolation error is one of the engine's own `ErrBadPath`
wraps (a `resolveFailed` instead carries the resolver's error). -/
def InterpError.isBadPath {ε : Type} : InterpError ε → Bool
  | .resolveFailed _ _ => false
  | _ => true

/-- `strings.IndexByte(out[p:], '$')` together with the split it induces:
the characters strictly before the first `$` and the characters strictly
after it, or `none` when there is no `$`. -/
def splitAtDollar : List Char → Option (List Char × List Char)
  | [] => none
  | '$' :: rest => some ([], rest)
  | c :: rest => (splitAtDollar rest).map (fun p => (c :: p.1, p.2))

/-- `strings.IndexByte(out[start:], '}')` together with the split it
induces: the characters before the first `\x7d` and the characters after
it, or `none` when the remainder holds no `\x7d`. -/
def splitAtBrace : List Char → Option (List Char × List Char)
  | [] => none
  | '}' :: rest => some ([], rest)
  | c :: rest => (splitAtBrace rest).map (fun p => (c :: p.1, p.2))

/-- One interpolation pass (the inner `for p` loop of
`resolveStringDepth`), written with explicit fuel so that it is structural
and evaluates inside the kernel; every step consumes at least one
character, so fuel equal to the input length always suffices (`onePass`
below applies it so, and any fuel at least the length gives the same
result — `onePassGo_fuel`).  Each step mirrors one loop iteration: find
the next `$` (none: emit the remainder and finish the pass).  When the
`$` is directly preceded by a `\` inside the current segment and directly
followed by `\x7b` (`isEscapedDollarBrace`), emit the segment without the
backslash, then a literal `$\x7b`, and continue after it without setting
the expanded flag.  Otherwise, a `$` not followed by `\x7b` is emitted
literally.  Otherwise `tokenBounds` runs the token content to the next
`\x7d` — no closing brace and all-whitespace content fail the whole call
(Go `strings.TrimSpace(content) == ""`), a resolver error is wrapped with
the token content, and a resolved value is emitted verbatim, setting the
expanded flag. -/
def onePassGo {ε : Type} (r : String → Except ε String) (fuel : Nat)
    (l : List Char) : Except (InterpError ε) (List Char × Bool) :=
  match fuel with
  | 0 => .ok (l, false)
  | n + 1 =>
    match splitAtDollar l with
    | none => .ok (l, false)
    | some (before, after) =>
      if before.getLast? = some '\\' ∧ after.head? = some '{' then
        match onePassGo r n after.tail with
        | .error e => .error e
        | .ok (t, ex) => .ok (before.dropLast ++ '$' :: '{' :: t, ex)
      else if after.head? = some '{' then
        match splitAtBrace after.tail with
        | none => .error .missingClosingBrace
        | some (content, afterBrace) =>
          if content.all goIsSpace then .error .emptyToken
          else
            match r (String.mk content) with
            | .error e => .error (.resolveFailed (String.mk content) e)
            | .ok v =>
              match onePassGo r n afterBrace with
              | .error e => .error e
              | .ok (t, _) => .ok (before ++ v.data ++ t, true)
      else
        match onePassGo r n after with
        | .error e => .error e
        | .ok (t, ex) => .ok (before ++ '$' :: t, ex)

/-- A single left-to-right interpolation pass over a string, returning the
rebuilt string and whether any token was expanded. -/
def onePass {ε : Type} (r : String → Except ε String) (l : List Char) :
    Except (InterpError ε) (List Char × Bool) :=
  onePassGo r l.length l

/-- Whether the text contains the literal substring `$\x7b`
(`strings.Contains(out, "$\x7b")`). -/
def containsDollarBrace : List Char → Bool
  | [] => false
  | '$' :: '{' :: _ => true
  | _ :: rest => containsDollarBrace rest

/-- The multi-pass loop of `resolveStringDepth`: with passes remaining,
run one pass; a pass that expanded nothing returns its output as the
final result, an expanding pass feeds its output to the next; once the
pass budget is exhausted the output succeeds only if no `$\x7b`
remains, and otherwise fails with the depth-exceeded `ErrBadPath`. -/
def runPasses {ε : Type} (r : String → Except ε String) :
    List Char → Nat → Except (InterpError ε) (List Char)
  | out, 0 =>
    if containsDollarBrace out then .error .depthExceeded else .ok out
  | out, n + 1 =>
    match onePass r out with
    | .error e => .error e
    | .ok (b, false) => .ok b
    | .ok (b, true) => runPasses r b n

/-- `resolveStringDepth` on strings: up to `maxDepth` passes. -/
def resolveStringDepth {ε : Type} (r : String → Except ε String)
    (s : String) (maxDepth : Nat) : Except (InterpError ε) String :=
  match runPasses r s.data maxDepth with
  | .error e => .error e
  | .ok l => .ok (String.mk l)

/-- `ResolveString` (interpolation.go): `resolveStringDepth` with the fixed
budget of 8 passes.  The Go method resolves tokens through the registry's
`ResolveVariable`; the model takes that capability as the parameter `r`. -/
def ResolveString {ε : Type} (r : String → Except ε String) (s : String) :
    Except (InterpError ε) String :=
  resolveStringDepth r s 8

/-- The type pairings `equalCoerced` compares without its textual
fallback, indexed (as in the Go switch) by the coerced filter value's type
first: bool against bool, int against int or float64, float64 against
float64, string against string. -/
def pairedGo (v want : Value) : Bool :=
  match want, v with
  | .bool _, .bool _ => true
  | .int _, .int _ => true
  | .int _, .float _ => true
  | .float _, .float _ => true
  | .str _, .str _ => true
  | _, _ => false

/-- A resolver that succeeds on every token, marking the content visibly
(the test stub `R(...)`). -/
def stubResolve : String → Except String String :=
  fun c => .ok ("R(" ++ c ++ ")")

/-- A resolver that fails on every token; interpolation succeeding under it
shows the resolver was never invoked. -/
def failResolve : String → Except String String :=
  fun _ => .error "resolver invoked"

/-- The spec's self-reintroducing resolver `resolve(c) = "$\x7b" + c +
"\x7d"`. -/
def cycleResolve : String → Except String String :=
  fun c => .ok ("$\x7b" ++ c ++ "\x7d")

/-- A resolver that fails exactly on the token content `a` and succeeds on
everything else; an error mentioning `a` shows `resolve("a")` was
invoked. -/
def failOnAResolve : String → Except String String :=
  fun c => if c = "a" then .error "boom" else .ok ("R(" ++ c ++ ")")

/-! Helper lemmas. -/

/-- No quote or brace character is Go whitespace, so an all-whitespace
token content contains no closing brace. -/
theorem not_mem_of_all_space {w : List Char} (h : w.all goIsSpace = true) :
    '}' ∉ w := by
  intro hm
  have := List.all_eq_true.mp h _ hm
  simp [goIsSpace] at this

theorem splitAtDollar_of_not_mem {l : List Char} (h : '$' ∉ l) :
    splitAtDollar l = none := by
  induction l with
  | nil => rfl
  | cons c rest ih =>
    have hc : c ≠ '$' := fun hc => h (hc ▸ List.mem_cons_self c rest)
    have hr : '$' ∉ rest := fun hm => h (List.mem_cons_of_mem c hm)
    rw [splitAtDollar.eq_def]
    split
    · rfl
    · next heq => exact absurd (List.cons.injEq .. ▸ heq).1 hc
    · next heq =>
        obtain ⟨h1, h2⟩ := List.cons.injEq .. ▸ heq
        rw [← h2, ih hr]
        rfl

theorem splitAtDollar_append {a : List Char} (b : List Char) (h : '$' ∉ a) :
    splitAtDollar (a ++ '$' :: b) = some (a, b) := by
  induction a with
  | nil => rfl
  | cons c rest ih =>
    have hc : c ≠ '$' := fun hc => h (hc ▸ List.mem_cons_self c rest)
    have hr : '$' ∉ rest := fun hm => h (List.mem_cons_of_mem c hm)
    rw [List.cons_append, splitAtDollar.eq_def]
    split
    · next heq => exact absurd heq (by simp)
    · next heq => exact absurd (List.cons.injEq .. ▸ heq).1 hc
    · next c' rest' heq =>
      obtain ⟨h1, h2⟩ := List.cons.injEq .. ▸ heq
      subst h1; rw [← h2, ih hr]; rfl

theorem splitAtBrace_of_not_mem {l : List Char} (h : '}' ∉ l) :
    splitAtBrace l = none := by
  induction l with
  | nil => rfl
  | cons c rest ih =>
    have hc : c ≠ '}' := fun hc => h (hc ▸ List.mem_cons_self c rest)
    have hr : '}' ∉ rest := fun hm => h (List.mem_cons_of_mem c hm)
    rw [splitAtBrace.eq_def]
    split
    · rfl
    · next heq => exact absurd (List.cons.injEq .. ▸ heq).1 hc
    · next heq =>
        obtain ⟨h1, h2⟩ := List.cons.injEq .. ▸ heq
        rw [← h2, ih hr]
        rfl

theorem splitAtBrace_append {a : List Char} (b : List Char) (h : '}' ∉ a) :
    splitAtBrace (a ++ '}' :: b) = some (a, b) := by
  induction a with
  | nil => rfl
  | cons c rest ih =>
    have hc : c ≠ '}' := fun hc => h (hc ▸ List.mem_cons_self c rest)
    have hr : '}' ∉ rest := fun hm => h (List.mem_cons_of_mem c hm)
    rw [List.cons_append, splitAtBrace.eq_def]
    split
    · next heq => exact absurd heq (by simp)
    · next heq => exact absurd (List.cons.injEq .. ▸ heq).1 hc
    · next c' rest' heq =>
      obtain ⟨h1, h2⟩ := List.cons.injEq .. ▸ heq
      subst h1; rw [← h2, ih hr]; rfl

theorem splitAtDollar_length {l before after : List Char}
    (h : splitAtDollar l = some (before, after)) :
    before.length + 1 + after.length = l.length := by
  induction l generalizing before after with
  | nil => simp [splitAtDollar] at h
  | cons c rest ih =>
    rw [splitAtDollar.eq_def] at h
    split at h
    · cases h
    · next heq =>
      obtain ⟨h1, h2⟩ := List.cons.injEq .. ▸ heq
      cases h
      subst h2
      simp only [List.length_nil, List.length_cons]
      omega
    · next heq =>
      obtain ⟨h1, h2⟩ := List.cons.injEq .. ▸ heq
      subst h1
      cases hs : splitAtDollar rest with
      | none => rw [← h2, hs] at h; cases h
      | some p =>
        rw [← h2, hs] at h
        cases p with
        | mk b' a' =>
          simp only [Option.map_some'] at h
          cases h
          have := ih hs
          simp only [List.length_cons] at this ⊢
          omega

theorem splitAtBrace_length {l before after : List Char}
    (h : splitAtBrace l = some (before, after)) :
    before.length + 1 + after.length = l.length := by
  induction l generalizing before after with
  | nil => simp [splitAtBrace] at h
  | cons c rest ih =>
    rw [splitAtBrace.eq_def] at h
    split at h
    · cases h
    · next heq =>
      obtain ⟨h1, h2⟩ := List.cons.injEq .. ▸ heq
      cases h
      subst h2
      simp only [List.length_nil, List.length_cons]
      omega
    · next heq =>
      obtain ⟨h1, h2⟩ := List.cons.injEq .. ▸ heq
      subst h1
      cases hs : splitAtBrace rest with
      | none => rw [← h2, hs] at h; cases h
      | some p =>
        rw [← h2, hs] at h
        cases p with
        | mk b' a' =>
          simp only [Option.map_some'] at h
          cases h
          have := ih hs
          simp only [List.length_cons] at this ⊢
          omega

/-- Any fuel of at least the input length gives the same pass result. -/
theorem onePassGo_fuel {ε : Type} (r : String → Except ε String) :
    ∀ n, ∀ (l : List Char) (m : Nat), l.length ≤ n → l.length ≤ m →
      onePassGo r n l = onePassGo r m l := by
  intro n
  induction n with
  | zero =>
    intro l m hn _
    have hl : l = [] := List.eq_nil_of_length_eq_zero (Nat.le_zero.mp hn)
    subst hl
    cases m with
    | zero => rfl
    | succ m => simp [onePassGo, splitAtDollar]
  | succ n ih =>
    intro l m hn hm
    cases m with
    | zero =>
      have hl : l = [] := List.eq_nil_of_length_eq_zero (Nat.le_zero.mp hm)
      subst hl
      simp [onePassGo, splitAtDollar]
    | succ m =>
      simp only [onePassGo]
      cases hsd : splitAtDollar l with
      | none => rfl
      | some p =>
        cases p with
        | mk before after =>
          have hlen := splitAtDollar_length hsd
          by_cases hesc : before.getLast? = some '\\' ∧ after.head? = some '{'
          · simp only [if_pos hesc]
            rw [ih after.tail m (by have := after.length_tail; omega)
                (by have := after.length_tail; omega)]
          · simp only [if_neg hesc]
            by_cases htok : after.head? = some '{'
            · simp only [if_pos htok]
              cases hsb : splitAtBrace after.tail with
              | none => rfl
              | some q =>
                cases q with
                | mk content afterBrace =>
                  have hlen2 := splitAtBrace_length hsb
                  have hta := after.length_tail
                  by_cases hws : content.all goIsSpace
                  · simp [hws]
                  · simp only [hws, Bool.false_eq_true, if_false]
                    cases hr : r (String.mk content) with
                    | error e => rfl
                    | ok v =>
                      rw [ih afterBrace m (by omega) (by omega)]
            · simp only [if_neg htok]
              rw [ih after m (by omega) (by omega)]

/-- The path scan always produces at least one token. -/
theorem parsePathAux_pos : ∀ (l buf : List Char) (d : Nat),
    1 ≤ (parsePathAux l buf d).length := by
  intro l
  induction l with
  | nil => intro buf d; simp [parsePathAux]
  | cons c rest ih =>
    intro buf d
    simp only [parsePathAux]
    by_cases h1 : c = '['
    · simp only [if_pos h1]; exact ih ..
    · simp only [if_neg h1]
      by_cases h2 : c = ']'
      · simp only [if_pos h2]; exact ih ..
      · simp only [if_neg h2]
        by_cases h3 : c = '.'
        · simp only [if_pos h3]
          by_cases h4 : d = 0
          · simp [if_pos h4]
          · simp only [if_neg h4]; exact ih ..
        · simp only [if_neg h3]; exact ih ..

/-- On bracket-free input the path scan coincides with splitting on dots. -/
theorem parsePathAux_eq_splitDot : ∀ (l buf : List Char),
    '[' ∉ l → ']' ∉ l → parsePathAux l buf 0 = splitDotAux l buf := by
  intro l
  induction l with
  | nil => intro buf _ _; rfl
  | cons c rest ih =>
    intro buf hl hr
    have h1 : c ≠ '[' := fun h => hl (h ▸ List.mem_cons_self c rest)
    have h2 : c ≠ ']' := fun h => hr (h ▸ List.mem_cons_self c rest)
    have hl' : '[' ∉ rest := fun h => hl (List.mem_cons_of_mem c h)
    have hr' : ']' ∉ rest := fun h => hr (List.mem_cons_of_mem c h)
    simp only [parsePathAux, splitDotAux, if_neg h1, if_neg h2]
    by_cases h3 : c = '.'
    · simp only [if_pos h3, ih [] hl' hr']
      simp
    · simp only [if_neg h3, ih (buf ++ [c]) hl' hr']

/-- The filter scan is the first-match search under `filterPred`. -/
theorem findMatch_eq_find (fk : String) (want : Value) :
    ∀ l : List Value, findMatch fk want l = l.find? (filterPred fk want) := by
  intro l
  induction l with
  | nil => rfl
  | cons elem rest ih =>
    cases elem with
    | map m =>
      cases hl : lookupEntry fk m with
      | none =>
        rw [show findMatch fk want (.map m :: rest)
              = findMatch fk want rest from by simp [findMatch, hl]]
        rw [List.find?_cons_of_neg _ (by simp [filterPred, hl]), ih]
      | some got =>
        by_cases he : equalCoerced got want
        · rw [show findMatch fk want (.map m :: rest)
                = some (.map m) from by simp [findMatch, hl, he]]
          rw [List.find?_cons_of_pos _ (by simp [filterPred, hl, he])]
        · rw [show findMatch fk want (.map m :: rest)
                = findMatch fk want rest from by simp [findMatch, hl, he]]
          rw [List.find?_cons_of_neg _ (by simp [filterPred, hl, he]), ih]
    | str s =>
      rw [show findMatch fk want (.str s :: rest) = findMatch fk want rest from rfl]
      rw [List.find?_cons_of_neg _ (by simp [filterPred]), ih]
    | int n =>
      rw [show findMatch fk want (.int n :: rest) = findMatch fk want rest from rfl]
      rw [List.find?_cons_of_neg _ (by simp [filterPred]), ih]
    | float q =>
      rw [show findMatch fk want (.float q :: rest) = findMatch fk want rest from rfl]
      rw [List.find?_cons_of_neg _ (by simp [filterPred]), ih]
    | bool b =>
      rw [show findMatch fk want (.bool b :: rest) = findMatch fk want rest from rfl]
      rw [List.find?_cons_of_neg _ (by simp [filterPred]), ih]
    | null =>
      rw [show findMatch fk want (.null :: rest) = findMatch fk want rest from rfl]
      rw [List.find?_cons_of_neg _ (by simp [filterPred]), ih]
    | seq es =>
      rw [show findMatch fk want (.seq es :: rest) = findMatch fk want rest from rfl]
      rw [List.find?_cons_of_neg _ (by simp [filterPred]), ih]

/-- A pass is computed at fuel equal to the input length; any larger fuel
agrees. -/
theorem onePass_toFuel {ε : Type} (r : String → Except ε String)
    (l : List Char) (n : Nat) (h : l.length ≤ n) :
    onePass r l = onePassGo r n l :=
  onePassGo_fuel r l.length l n le_rfl h

/-- A pass over text without `$` returns it unchanged, expanding nothing. -/
theorem onePass_noDollar {ε : Type} (r : String → Except ε String)
    (l : List Char) (h : splitAtDollar l = none) :
    onePass r l = .ok (l, false) := by
  cases l with
  | nil => rfl
  | cons c rest => simp only [onePass, List.length_cons, onePassGo, h]

/-- Step equation for the escape `\$\x7b` after a `$`-free segment: the
segment is emitted without the backslash, a literal `$\x7b` follows, the
scan continues after the escape, and the expanded flag is whatever the
remainder produces. -/
theorem onePass_escape {ε : Type} (r : String → Except ε String)
    (a rest : List Char) (ha : '$' ∉ a) :
    onePass r (a ++ '\\' :: '$' :: '{' :: rest) =
      match onePass r rest with
      | .error e => .error e
      | .ok (t, ex) => .ok (a ++ '$' :: '{' :: t, ex) := by
  have hsplit : splitAtDollar (a ++ '\\' :: '$' :: '{' :: rest)
      = some (a ++ ['\\'], '{' :: rest) := by
    rw [show a ++ '\\' :: '$' :: '{' :: rest
          = (a ++ ['\\']) ++ '$' :: '{' :: rest from by simp]
    refine splitAtDollar_append _ ?_
    intro hm
    rcases List.mem_append.mp hm with h | h
    · exact ha h
    · simp at h
  rw [onePass_toFuel r _ ((a.length + rest.length + 2) + 1) (by simp; omega)]
  conv_lhs => rw [onePassGo]
  rw [hsplit]
  dsimp only
  rw [if_pos ⟨by simp, rfl⟩]
  rw [show ('{' :: rest).tail = rest from rfl]
  rw [← onePass_toFuel r rest _ (by omega)]
  simp only [List.dropLast_concat]

/-- Step equation for a real token start `$\x7b` after a `$`-free segment
not ending in a backslash: the token content runs to the next `\x7d`
(failing the pass when there is none or when it is all whitespace), the
resolver's error is wrapped with the content, and a resolved value is
spliced in with the expanded flag set. -/
theorem onePass_token {ε : Type} (r : String → Except ε String)
    (a rest : List Char) (ha : '$' ∉ a) (hb : a.getLast? ≠ some '\\') :
    onePass r (a ++ '$' :: '{' :: rest) =
      match splitAtBrace rest with
      | none => .error .missingClosingBrace
      | some (content, afterBrace) =>
        if content.all goIsSpace then .error .emptyToken
        else
          match r (String.mk content) with
          | .error e => .error (.resolveFailed (String.mk content) e)
          | .ok v =>
            match onePass r afterBrace with
            | .error e => .error e
            | .ok (t, _) => .ok (a ++ v.data ++ t, true) := by
  have hsplit : splitAtDollar (a ++ '$' :: '{' :: rest) = some (a, '{' :: rest) :=
    splitAtDollar_append _ ha
  rw [onePass_toFuel r _ ((a.length + rest.length + 1) + 1) (by simp; omega)]
  conv_lhs => rw [onePassGo]
  rw [hsplit]
  dsimp only [List.head?_cons, List.tail_cons]
  rw [if_neg (fun h => hb h.1)]
  rw [if_pos rfl]
  cases hsb : splitAtBrace rest with
  | none => rfl
  | some p =>
    cases p with
    | mk content afterBrace =>
      have hlen := splitAtBrace_length hsb
      by_cases hws : content.all goIsSpace
      · simp [hws]
      · simp only [hws, Bool.false_eq_true, if_false]
        cases hr : r (String.mk content) with
        | error e => rfl
        | ok v =>
          rw [← onePass_toFuel r afterBrace _ (by omega)]

/-- A pass that expanded nothing ends the loop with its output. -/
theorem runPasses_stable {ε : Type} (r : String → Except ε String)
    (out b : List Char) (n : Nat) (h : onePass r out = .ok (b, false)) :
    runPasses r out (n + 1) = .ok b := by
  simp only [runPasses, h]

/-- A failing pass fails the loop. -/
theorem runPasses_error {ε : Type} (r : String → Except ε String)
    (out : List Char) (n : Nat) (e : InterpError ε)
    (h : onePass r out = .error e) :
    runPasses r out (n + 1) = .error e := by
  simp only [runPasses, h]

/-- An expanding pass feeds its output to the remaining passes. -/
theorem runPasses_expand {ε : Type} (r : String → Except ε String)
    (out b : List Char) (n : Nat) (h : onePass r out = .ok (b, true)) :
    runPasses r out (n + 1) = runPasses r b n := by
  simp only [runPasses, h]

/-- A failure of the first pass is the result of the whole call. -/
theorem ResolveString_error_of_onePass {ε : Type}
    (r : String → Except ε String) (s : String) (e : InterpError ε)
    (h : onePass r s.data = .error e) :
    ResolveString r s = .error e := by
  have h8 : runPasses r s.data 8 = .error e := by
    rw [show (8 : Nat) = 7 + 1 from rfl]
    exact runPasses_error r s.data 7 e h
  simp only [ResolveString, resolveStringDepth, h8]

theorem splitFirstEq_append {fk : List Char} (rv : List Char)
    (h : '=' ∉ fk) : splitFirstEq (fk ++ '=' :: rv) = some (fk, rv) := by
  induction fk with
  | nil => rfl
  | cons c rest ih =>
    have hc : c ≠ '=' := fun hc => h (hc ▸ List.mem_cons_self c rest)
    have hr : '=' ∉ rest := fun hm => h (List.mem_cons_of_mem c hm)
    rw [List.cons_append, splitFirstEq.eq_def]
    split
    · next heq => exact absurd heq (by simp)
    · next heq => exact absurd (List.cons.injEq .. ▸ heq).1 hc
    · next c' rest' heq =>
      obtain ⟨h1, h2⟩ := List.cons.injEq .. ▸ heq
      subst h1; rw [← h2, ih hr]; rfl

/-! Claim theorems. -/

/-- C1: `ParsePath` is total and implements the depth-counting scan: every
input yields at least one token and never fails (the function is total by
construction and its output is provably nonempty), `ParsePath ""` is the
single empty-string token, on every bracket-free string `ParsePath`
coincides with splitting the string on `.`, and a dot inside a bracket
filter does not split (the spec's example path). -/
theorem claimC1 :
    (∀ s : String, 1 ≤ (ParsePath s).length) ∧
    ParsePath "" = [""] ∧
    (∀ s : String, '[' ∉ s.data → ']' ∉ s.data → ParsePath s = splitOnDot s) ∧
    ParsePath "servers.[host=example.org].port"
      = ["servers", "[host=example.org]", "port"] :=
  ⟨fun s => parsePathAux_pos s.data [] 0, rfl,
   fun s h1 h2 => parsePathAux_eq_splitDot s.data [] h1 h2, rfl⟩

/-- Witness for C1 at concrete inputs. -/
theorem claimC1_witness :
    ParsePath "a.b.c" = splitOnDot "a.b.c" ∧ 1 ≤ (ParsePath "x[y.z").length :=
  ⟨claimC1.2.2.1 "a.b.c" (by decide) (by decide), claimC1.1 "x[y.z"⟩

/-- C2: on a Sequence, a filter-token segment coerces the raw value once
and selects by a linear first-match scan: the step returns the first
element satisfying `filterPred` (a Mapping that carries the field with an
`equalCoerced`-equal value; non-Mappings and Mappings without the field
never match), and when no element matches it returns an error and no
value. -/
theorem claimC2 (elems : List Value) (tok fk raw : String)
    (h1 : isFilterToken tok = true)
    (h2 : parseFilterToken tok = .ok (fk, raw)) :
    navStep (.seq elems) tok =
      match elems.find? (filterPred fk (coerce raw)) with
      | some e => .ok e
      | none => .error (.noFilterMatch fk (coerce raw)) := by
  unfold navStep
  dsimp only
  rw [if_pos h1, h2]
  dsimp only
  rw [findMatch_eq_find]

/-- Witness for C2: the first matching element wins past a non-Mapping
element and a non-matching Mapping. -/
theorem claimC2_witness :
    navStep (.seq [.str "not-a-map", .map [("name", .str "web")],
        .map [("name", .str "api"), ("port", .int 443)]]) "[name=api]" =
      match [Value.str "not-a-map", .map [("name", .str "web")],
          .map [("name", .str "api"), ("port", .int 443)]].find?
          (filterPred "name" (coerce "api")) with
      | some e => .ok e
      | none => .error (.noFilterMatch "name" (coerce "api")) :=
  claimC2 _ "[name=api]" "name" "api" (by rfl) (by rfl)

/-- C3 as stated is false on the code: `"tRuE"` matches `"true"`
case-insensitively, so the claimed coercion is the corresponding boolean
`true`, but `coerce` returns `Bool false` because the Go code discards the
`strconv.ParseBool` error (`b, _ := strconv.ParseBool(val)`) and
`ParseBool` rejects the spelling `tRuE`, leaving the zero value. -/
theorem claimC3_counterexample :
    coerce "tRuE" = Value.bool false ∧ Value.bool false ≠ Value.bool true :=
  ⟨rfl, fun h => by injection h with h'; exact Bool.noConfusion h'⟩

/-- C3 amended: `coerce` tries integer parse, then float parse, then — when
the lowercased string equals `true`/`false` — the boolean produced by a
strict `strconv.ParseBool` of the original spelling with a failed parse
yielding `false`; otherwise the string unchanged.  Integer parsing precedes
boolean matching, so `"1"`/`"0"` give integers; `"true"` and `"TRUE"` give
`Bool true` but the mixed-case `"tRuE"` gives `Bool false`; `"3.14"` gives
the float `157/50`; `"hello"` stays a string. -/
theorem claimC3 :
    (∀ (s : String) (n : Int), goAtoi s.data = some n → coerce s = .int n) ∧
    (∀ (s : String) (q : Rat), goAtoi s.data = none →
      goParseFloat s.data = some q → coerce s = .float q) ∧
    (∀ s : String, goAtoi s.data = none → goParseFloat s.data = none →
      (toLowerStr s = "true" ∨ toLowerStr s = "false") →
      coerce s = .bool ((goParseBool s).getD false)) ∧
    (∀ s : String, goAtoi s.data = none → goParseFloat s.data = none →
      ¬(toLowerStr s = "true" ∨ toLowerStr s = "false") →
      coerce s = .str s) ∧
    coerce "1" = .int 1 ∧ coerce "0" = .int 0 ∧
    coerce "true" = .bool true ∧ coerce "TRUE" = .bool true ∧
    coerce "tRuE" = .bool false ∧
    coerce "3.14" = .float 3.14 ∧ coerce "hello" = .str "hello" := by
  refine ⟨?_, ?_, ?_, ?_, rfl, rfl, rfl, rfl, rfl, ?_, rfl⟩
  · intro s n h; unfold coerce; rw [h]
  · intro s q h1 h2; unfold coerce; rw [h1, h2]
  · intro s h1 h2 h3; unfold coerce; rw [h1, h2, if_pos h3]
  · intro s h1 h2 h3; unfold coerce; rw [h1, h2, if_neg h3]
  · rw [show (3.14 : Rat) = mkRat 157 50 from by norm_num]; rfl

/-- Witness for C3's universally quantified conjuncts at concrete inputs. -/
theorem claimC3_witness :
    coerce "-7" = .int (-7) ∧ coerce "1.2e3" = .float (mkRat 1200 1) :=
  ⟨claimC3.1 "-7" (-7) (by rfl), claimC3.2.1 "1.2e3" (mkRat 1200 1) (by rfl) (by rfl)⟩

/-- C4: `equalCoerced` compares type-aware — boolean/boolean, integer/
integer, float/float and string/string directly; an integer filter value
matches a float tree value exactly when the float is numerically that
integer (no fractional part); every unpaired combination falls back to
comparing the two sides' textual renderings; and a Mapping whose field
`id` holds the float `1.0` matches the filter `[id=1]`. -/
theorem claimC4 :
    (∀ vb w : Bool, equalCoerced (.bool vb) (.bool w) = decide (vb = w)) ∧
    (∀ n w : Int, equalCoerced (.int n) (.int w) = decide (n = w)) ∧
    (∀ (q : Rat) (w : Int),
      equalCoerced (.float q) (.int w) = true ↔ q = (w : Rat)) ∧
    (∀ q w : Rat, equalCoerced (.float q) (.float w) = decide (q = w)) ∧
    (∀ s w : String, equalCoerced (.str s) (.str w) = decide (s = w)) ∧
    (∀ v w : Value, pairedGo v w = false →
      equalCoerced v w = decide (renderValue v = renderValue w)) ∧
    navStep (.seq [.map [("id", .float 1)]]) "[id=1]"
      = .ok (.map [("id", .float 1)]) := by
  refine ⟨fun vb w => rfl, fun n w => rfl, ?_, fun q w => rfl, fun s w => rfl, ?_, rfl⟩
  · intro q w
    constructor
    · intro h
      simp only [equalCoerced, Bool.and_eq_true, decide_eq_true_eq] at h
      rw [← h.2, h.1]
    · intro h
      subst h
      have hden : (((w : Rat)).den : Int) = 1 := by rw [Rat.den_intCast]; rfl
      simp only [equalCoerced, Bool.and_eq_true, decide_eq_true_eq,
        goTruncToInt, Rat.num_intCast, hden, Int.tdiv_one]
      exact ⟨trivial, trivial⟩
  · intro v w h
    cases w <;> cases v <;> first
      | rfl
      | (exfalso; simp [pairedGo] at h)

/-- Witness for C4's hypotheses at concrete values: the float/int pairing
and the textual fallback. -/
theorem claimC4_witness :
    (equalCoerced (.float (mkRat 3 1)) (.int 3) = true ↔ mkRat 3 1 = (3 : Rat)) ∧
    equalCoerced (.str "a") (.int 1)
      = decide (renderValue (.str "a") = renderValue (.int 1)) :=
  ⟨claimC4.2.2.1 (mkRat 3 1) 3, claimC4.2.2.2.2.2.1 (.str "a") (.int 1) (by rfl)⟩

/-- C5 fails as stated: in `[k=""v""]` the trimmed raw value `""v""` starts
and ends with a double quote, and the claim says exactly one layer of
quotes is stripped, which would leave `"v"`; the code applies
`strings.Trim(val, "\"'")` and removes every leading and trailing quote
character, producing bare `v`. -/
theorem claimC5_counterexample :
    parseFilterToken "[k=\"\"v\"\"]" = .ok ("k", "v") ∧
    ("v" : String) ≠ "\"v\"" :=
  ⟨rfl, by decide⟩

/-- C5 amended: a token is a filter token iff it starts with `[`, ends with
`]` and contains `=`; parsing strips one leading `[` and one trailing `]`,
splits at the first `=`, trims both sides, and — when the trimmed value
starts and ends with the same quote character — removes every leading and
trailing single/double quote character (`strings.Trim` over the two-quote
cutset, not exactly one layer), verbatim with no escape processing; an
empty field after trimming is an error. -/
theorem claimC5 :
    (∀ tok : String, isFilterToken tok = true ↔
      (tok.data.head? = some '[' ∧ tok.data.getLast? = some ']' ∧
        '=' ∈ tok.data)) ∧
    (∀ fk rv : List Char, '=' ∉ fk → trimSpaceL fk ≠ [] →
      parseFilterToken (String.mk ('[' :: fk ++ '=' :: rv ++ [']'])) =
        .ok (String.mk (trimSpaceL fk),
             String.mk (stripFilterQuotes (trimSpaceL rv)))) ∧
    (∀ fk rv : List Char, '=' ∉ fk → trimSpaceL fk = [] →
      parseFilterToken (String.mk ('[' :: fk ++ '=' :: rv ++ [']'])) =
        .error (.emptyFilterField
          (String.mk ('[' :: fk ++ '=' :: rv ++ [']'])))) ∧
    parseFilterToken "[k='v.w']" = .ok ("k", "v.w") := by
  refine ⟨?_, ?_, ?_, rfl⟩
  · intro tok
    simp only [isFilterToken, Bool.and_eq_true, decide_eq_true_eq, and_assoc]
    simp [List.elem_iff]
  · intro fk rv h1 h2
    have hlead : dropLeadChar '[' ('[' :: fk ++ '=' :: rv ++ [']'])
        = fk ++ '=' :: rv ++ [']'] := by
      simp [dropLeadChar]
    have htail : dropTailChar ']' (fk ++ '=' :: rv ++ [']'])
        = fk ++ '=' :: rv := by
      unfold dropTailChar
      rw [show fk ++ '=' :: rv ++ [']'] = (fk ++ '=' :: rv) ++ [']'] from by simp]
      rw [List.getLast?_concat, if_pos rfl, List.dropLast_concat]
    unfold parseFilterToken
    dsimp only
    rw [hlead, htail, splitFirstEq_append rv h1]
    dsimp only
    rw [if_neg h2]
  · intro fk rv h1 h2
    have hlead : dropLeadChar '[' ('[' :: fk ++ '=' :: rv ++ [']'])
        = fk ++ '=' :: rv ++ [']'] := by
      simp [dropLeadChar]
    have htail : dropTailChar ']' (fk ++ '=' :: rv ++ [']'])
        = fk ++ '=' :: rv := by
      unfold dropTailChar
      rw [show fk ++ '=' :: rv ++ [']'] = (fk ++ '=' :: rv) ++ [']'] from by simp]
      rw [List.getLast?_concat, if_pos rfl, List.dropLast_concat]
    unfold parseFilterToken
    dsimp only
    rw [hlead, htail, splitFirstEq_append rv h1]
    dsimp only
    rw [if_pos h2]

/-- Witness for C5's hypotheses at concrete inputs. -/
theorem claimC5_witness :
    (isFilterToken "[k=v]" = true ↔
      (("[k=v]" : String).data.head? = some '[' ∧
        ("[k=v]" : String).data.getLast? = some ']' ∧
        '=' ∈ ("[k=v]" : String).data)) ∧
    parseFilterToken (String.mk ('[' :: " k ".data ++ '=' :: " \"v\" ".data ++ [']'])) =
      .ok (String.mk (trimSpaceL " k ".data),
           String.mk (stripFilterQuotes (trimSpaceL " \"v\" ".data))) ∧
    parseFilterToken (String.mk ('[' :: "  ".data ++ '=' :: "v".data ++ [']'])) =
      .error (.emptyFilterField
        (String.mk ('[' :: "  ".data ++ '=' :: "v".data ++ [']']))) :=
  ⟨claimC5.1 "[k=v]",
   claimC5.2.1 " k ".data " \"v\" ".data (by decide) (by decide),
   claimC5.2.2.1 "  ".data "v".data (by decide) (by decide)⟩

/-- C6: `Navigate` stops at the first failing step and returns no value
with the error; a missing map key, an out-of-range index (negative or at
least the length) and an unmatched filter are NotFound-kind errors, while
a sequence token that is neither a filter token nor parseable as an
integer is the BadPath-kind error of the "not a valid index or filter"
branch. -/
theorem claimC6 :
    (∀ (v : Value) (k : String) (ks : List String) (e : NavError),
      navStep v k = .error e → Navigate v (k :: ks) = .error e) ∧
    (∀ (entries : List (String × Value)) (k : String) (ks : List String),
      lookupEntry k entries = none →
      Navigate (.map entries) (k :: ks) = .error (.keyNotFound k) ∧
        navErrKind (.keyNotFound k) = .notFound) ∧
    (∀ (elems : List Value) (tok : String) (idx : Int) (ks : List String),
      isFilterToken tok = false → goAtoi tok.data = some idx →
      (idx < 0 ∨ (elems.length : Int) ≤ idx) →
      Navigate (.seq elems) (tok :: ks) = .error (.indexOutOfBounds idx) ∧
        navErrKind (.indexOutOfBounds idx) = .notFound) ∧
    (∀ (elems : List Value) (tok fk raw : String) (ks : List String),
      isFilterToken tok = true → parseFilterToken tok = .ok (fk, raw) →
      findMatch fk (coerce raw) elems = none →
      Navigate (.seq elems) (tok :: ks)
          = .error (.noFilterMatch fk (coerce raw)) ∧
        navErrKind (.noFilterMatch fk (coerce raw)) = .notFound) ∧
    (∀ (elems : List Value) (tok : String) (ks : List String),
      isFilterToken tok = false → goAtoi tok.data = none →
      Navigate (.seq elems) (tok :: ks) = .error (.badIndexToken tok) ∧
        navErrKind (.badIndexToken tok) = .badPath) := by
  have hstep : ∀ (v : Value) (k : String) (ks : List String) (e : NavError),
      navStep v k = .error e → Navigate v (k :: ks) = .error e := by
    intro v k ks e h
    simp only [Navigate, h]
  refine ⟨hstep, ?_, ?_, ?_, ?_⟩
  · intro entries k ks h
    refine ⟨hstep _ _ _ _ ?_, rfl⟩
    simp only [navStep, h]
  · intro elems tok idx ks h1 h2 h3
    refine ⟨hstep _ _ _ _ ?_, rfl⟩
    unfold navStep
    dsimp only
    rw [if_neg (by simp [h1]), h2]
    dsimp only
    rw [if_pos h3]
  · intro elems tok fk raw ks h1 h2 h3
    refine ⟨hstep _ _ _ _ ?_, rfl⟩
    unfold navStep
    dsimp only
    rw [if_pos h1, h2]
    dsimp only
    rw [h3]
  · intro elems tok ks h1 h2
    refine ⟨hstep _ _ _ _ ?_, rfl⟩
    unfold navStep
    dsimp only
    rw [if_neg (by simp [h1]), h2]

/-- Witness for C6 at concrete inputs: a non-numeric non-filter token on a
sequence, and an out-of-range index. -/
theorem claimC6_witness :
    (Navigate (.seq [.int 10]) ["one"] = .error (.badIndexToken "one") ∧
      navErrKind (.badIndexToken "one") = .badPath) ∧
    (Navigate (.seq [.int 10]) ["99", "x"] = .error (.indexOutOfBounds 99) ∧
      navErrKind (.indexOutOfBounds 99) = .notFound) :=
  ⟨claimC6.2.2.2.2 [.int 10] "one" [] (by rfl) (by rfl),
   claimC6.2.2.1 [.int 10] "99" 99 ["x"] (by rfl) (by rfl) (by decide)⟩

/-- C7: the multi-pass loop returns the pass output as final success as
soon as a pass expands no token; after the pass budget is spent the
result is the depth-exceeded BadPath error exactly when the literal
`$\x7b` remains in the output; the budget is 8 passes
(`ResolveString = resolveStringDepth · 8`), and the spec's
self-reintroducing resolver on an input containing a token exhausts it
and fails with the depth-exceeded BadPath error. -/
theorem claimC7 :
    (∀ (r : String → Except String String) (out b : List Char) (n : Nat),
      onePass r out = .ok (b, false) → runPasses r out (n + 1) = .ok b) ∧
    (∀ (r : String → Except String String) (out : List Char),
      runPasses r out 0 =
        if containsDollarBrace out then .error .depthExceeded else .ok out) ∧
    (∀ (r : String → Except String String) (s : String),
      ResolveString r s = resolveStringDepth r s 8) ∧
    (InterpError.depthExceeded : InterpError String).isBadPath = true ∧
    ResolveString cycleResolve "x $\x7ba\x7d y" = .error .depthExceeded :=
  ⟨fun r out b n h => runPasses_stable r out b n h,
   fun _ _ => rfl, fun _ _ => rfl, rfl, rfl⟩

/-- Witness for C7's hypothesis: a pass that expands nothing ends the loop
at once. -/
theorem claimC7_witness :
    runPasses cycleResolve "q".data 1 = .ok "q".data :=
  claimC7.1 cycleResolve "q".data "q".data 0 (by rfl)

/-- C8: a `$\x7b` with no closing brace before end of input fails the
whole call with the BadPath "missing closing brace" error; an empty or
all-whitespace token content fails it with the BadPath "empty token"
error; a resolver error fails it wrapped with the token content, the
cause staying inspectable; in each case the error is the result — no
partially expanded string is returned (the spec's two concrete examples
close the statement). -/
theorem claimC8 :
    (∀ (r : String → Except String String) (a b : List Char),
      '$' ∉ a → a.getLast? ≠ some '\\' → '}' ∉ b →
      ResolveString r (String.mk (a ++ '$' :: '{' :: b))
        = .error .missingClosingBrace) ∧
    (∀ (r : String → Except String String) (a w c : List Char),
      '$' ∉ a → a.getLast? ≠ some '\\' → w.all goIsSpace = true →
      ResolveString r (String.mk (a ++ '$' :: '{' :: (w ++ '}' :: c)))
        = .error .emptyToken) ∧
    (∀ (r : String → Except String String) (a content c : List Char)
        (e : String),
      '$' ∉ a → a.getLast? ≠ some '\\' → '}' ∉ content →
      content.all goIsSpace = false → r (String.mk content) = .error e →
      ResolveString r (String.mk (a ++ '$' :: '{' :: (content ++ '}' :: c)))
        = .error (.resolveFailed (String.mk content) e)) ∧
    (InterpError.missingClosingBrace : InterpError String).isBadPath = true ∧
    (InterpError.emptyToken : InterpError String).isBadPath = true ∧
    ResolveString stubResolve "oops $\x7b\x7d here" = .error .emptyToken ∧
    ResolveString stubResolve "oops $\x7bx:foo here"
      = .error .missingClosingBrace := by
  refine ⟨?_, ?_, ?_, rfl, rfl, rfl, rfl⟩
  · intro r a b ha hb hbr
    refine ResolveString_error_of_onePass r _ _ ?_
    rw [show (String.mk (a ++ '$' :: '{' :: b)).data
          = a ++ '$' :: '{' :: b from rfl]
    rw [onePass_token r a b ha hb, splitAtBrace_of_not_mem hbr]
  · intro r a w c ha hb hw
    refine ResolveString_error_of_onePass r _ _ ?_
    rw [show (String.mk (a ++ '$' :: '{' :: (w ++ '}' :: c))).data
          = a ++ '$' :: '{' :: (w ++ '}' :: c) from rfl]
    rw [onePass_token r a _ ha hb,
      splitAtBrace_append c (not_mem_of_all_space hw)]
    dsimp only
    rw [if_pos hw]
  · intro r a content c e ha hb hbr hws hr
    refine ResolveString_error_of_onePass r _ _ ?_
    rw [show (String.mk (a ++ '$' :: '{' :: (content ++ '}' :: c))).data
          = a ++ '$' :: '{' :: (content ++ '}' :: c) from rfl]
    rw [onePass_token r a _ ha hb, splitAtBrace_append c hbr]
    dsimp only
    rw [hws, if_neg (by simp), hr]

/-- Witness for C8's hypotheses at concrete inputs. -/
theorem claimC8_witness :
    ResolveString stubResolve
        (String.mk ("oops ".data ++ '$' :: '{' :: "x:foo here".data))
      = .error .missingClosingBrace ∧
    ResolveString failResolve
        (String.mk ("x=".data ++ '$' :: '{' :: ("fail:now".data ++ '}' :: [])))
      = .error (.resolveFailed (String.mk "fail:now".data) "resolver invoked") :=
  ⟨claimC8.1 stubResolve "oops ".data "x:foo here".data
      (by decide) (by decide) (by decide),
   claimC8.2.2.1 failResolve "x=".data "fail:now".data [] "resolver invoked"
      (by decide) (by decide) (by decide) (by decide) (by rfl)⟩

/-- C9: a `$` preceded inside the current segment by a backslash and
followed by `\x7b` emits the preceding text without the backslash, then a
literal `$\x7b`, consumes the escape and continues, without counting as
an expansion (the flag is whatever the remainder produces); consequently
the spec's example interpolates to the literal text, and success under
the always-failing resolver shows `resolve` is never invoked for the
escaped span. -/
theorem claimC9 :
    (∀ (ε : Type) (r : String → Except ε String) (a rest : List Char),
      '$' ∉ a →
      onePass r (a ++ '\\' :: '$' :: '{' :: rest) =
        match onePass r rest with
        | .error e => .error e
        | .ok (t, ex) => .ok (a ++ '$' :: '{' :: t, ex)) ∧
    ResolveString failResolve "literal \\$\x7benv:USER\x7d here"
      = .ok "literal $\x7benv:USER\x7d here" :=
  ⟨fun _ r a rest ha => onePass_escape r a rest ha, rfl⟩

/-- Witness for C9's hypothesis at a concrete input. -/
theorem claimC9_witness :
    onePass failResolve ("x".data ++ '\\' :: '$' :: '{' :: "y".data) =
      match onePass failResolve "y".data with
      | .error e => .error e
      | .ok (t, ex) => .ok ("x".data ++ '$' :: '{' :: t, ex) :=
  claimC9.1 String failResolve "x".data "y".data (by decide)

/-- C10: escape protection does not survive across passes.  On
`\$\x7ba\x7d $\x7bb\x7d`, the first pass rewrites the escape to a literal
`$\x7ba\x7d` and expands `$\x7bb\x7d`, so a second pass runs on the
output and treats `$\x7ba\x7d` as an ordinary token: with a resolver
succeeding everywhere the result contains `R(a)`, and with a resolver
failing exactly on `a` the call fails with that error — both showing
`resolve("a")` is invoked even though the span was escaped in the
original input. -/
theorem claimC10 :
    ResolveString stubResolve "\\$\x7ba\x7d $\x7bb\x7d" = .ok "R(a) R(b)" ∧
    ResolveString failOnAResolve "\\$\x7ba\x7d $\x7bb\x7d"
      = .error (.resolveFailed "a" "boom") :=
  ⟨rfl, rfl⟩

end ResolverRepo
